import Mathlib

/-!
Verification of the smart-file-hub content-addressable deduplication engine
and of its React frontend glue code.

The repository's visible source (src/frontend) is the UI layer; the
dedup/retrieval core it talks to over HTTP is described in spec.md
(§3–§6). Definitions below are split accordingly:

* the core store model (`FileRecord`, `Store`, `ingest`, `deleteRecord`,
  `resolveContent`, `computeSavings`) is modelled from the spec, since the
  backend source is not part of the visible tree;
* the frontend definitions (`FilterState`, `PaginatedResponse`,
  `FileResponse`, `buildListParams`, `handleUpload`, `prevPage`,
  `nextPage`) are translated directly from
  `src/frontend/src/services/api.ts`, `FileUpload` and `FileList.tsx`.
-/

/-- Modelled from the spec: the configured maximum upload size, 10 MB
(§4.3 step 1; the UI in FileUpload says "Any file up to 10MB"). -/
def maxUploadSize : Nat := 10 * 1024 * 1024

/-- Byte sequences are modelled as lists of naturals. -/
abbrev Bytes := List Nat

/-- Modelled from the spec: HashComputer (§4.1) — a deterministic,
collision-resistant digest of the byte content. The spec demands
`same bytes → same digest` and `different bytes → different digest`;
both are captured exactly by the identity embedding of the byte
sequence, which is what we use. The digest depends on nothing but the
bytes. -/
def hashBytes (bytes : Bytes) : Bytes := bytes

/-- Modelled from the spec: content-type detection "derived from content,
not from filename extension" (§3). The detection table itself is not in
the available material; it is modelled as a function of the byte content
alone. -/
def detectContentType (bytes : Bytes) : String :=
  match bytes with
  | [] => "application/x-empty"
  | _ => "application/octet-stream"

/-- Modelled from the spec: a FileRecord (§3 data model). `physicalContent`
is present only on originals; `originalRef` only on duplicates. -/
structure FileRecord where
  id : Nat
  name : String
  size : Nat
  contentType : String
  contentHash : Bytes
  isOriginal : Bool
  physicalContent : Option Bytes
  originalRef : Option Nat
deriving DecidableEq, Repr

/-- Modelled from the spec: the RecordStore (§3) — the list of persisted
records plus a counter supplying fresh identifiers. -/
structure Store where
  records : List FileRecord
  nextId : Nat
deriving DecidableEq, Repr

def Store.empty : Store := ⟨[], 0⟩

/-- Modelled from the spec: ContentIndex.lookupByHash (§4.2) — the current
original record for a hash, if any. -/
def lookupByHash (s : Store) (h : Bytes) : Option FileRecord :=
  s.records.find? (fun r => r.isOriginal && r.contentHash == h)

/-- Lookup of a record by its identifier. -/
def lookupById (s : Store) (i : Nat) : Option FileRecord :=
  s.records.find? (fun r => r.id == i)

inductive IngestError where
  | PayloadTooLarge
deriving DecidableEq, Repr

/-- The record persisted on the duplicate path of ingest: no physical
content, an ownership reference to the original with id `oid`. -/
def mkDupRecord (s : Store) (bytes : Bytes) (name : String) (oid : Nat) :
    FileRecord :=
  { id := s.nextId, name := name, size := bytes.length,
    contentType := detectContentType bytes, contentHash := hashBytes bytes,
    isOriginal := false, physicalContent := none,
    originalRef := some oid }

/-- The record persisted on the new-content path of ingest: it owns the
physical bytes and has no ownership reference. -/
def mkOrigRecord (s : Store) (bytes : Bytes) (name : String) : FileRecord :=
  { id := s.nextId, name := name, size := bytes.length,
    contentType := detectContentType bytes, contentHash := hashBytes bytes,
    isOriginal := true, physicalContent := some bytes,
    originalRef := none }

/-- Modelled from the spec: IngestionResolver.ingest (§4.3). Rejects
payloads over the maximum, hashes the bytes, consults the content index,
and persists either a fresh original or a duplicate referencing the
existing original. -/
def ingest (s : Store) (bytes : Bytes) (name : String) :
    Except IngestError (Store × FileRecord) :=
  if bytes.length > maxUploadSize then
    .error .PayloadTooLarge
  else
    let r : FileRecord :=
      match lookupByHash s (hashBytes bytes) with
      | some orig => mkDupRecord s bytes name orig.id
      | none => mkOrigRecord s bytes name
    .ok ({ records := s.records ++ [r], nextId := s.nextId + 1 }, r)

inductive DeleteError where
  | NotFound
  | OriginalHasDependents
deriving DecidableEq, Repr

/-- Whether any record references `i` as its original. -/
def hasDependents (s : Store) (i : Nat) : Bool :=
  s.records.any (fun r => r.originalRef == some i)

/-- Modelled from the spec: delete (§6, §4.3 deletion policy). The spec
leaves the original-with-dependents policy open between "forbid" and
"promote-and-delete"; we model strategy (a), forbid, which fails with
`OriginalHasDependents`. -/
def deleteRecord (s : Store) (i : Nat) : Except DeleteError Store :=
  match lookupById s i with
  | none => .error .NotFound
  | some r =>
    if r.isOriginal && hasDependents s i then
      .error .OriginalHasDependents
    else
      .ok { s with records := s.records.filter (fun q => q.id != i) }

inductive RetrievalError where
  | NotFound
  | BrokenReference
deriving DecidableEq, Repr

/-- Modelled from the spec: RetrievalResolver.resolveContent (§4.4).
Originals serve their own physical content; duplicates follow
`originalRef` exactly one hop. -/
def resolveContent (s : Store) (i : Nat) : Except RetrievalError Bytes :=
  match lookupById s i with
  | none => .error .NotFound
  | some r =>
    if r.isOriginal then
      match r.physicalContent with
      | some c => .ok c
      | none => .error .BrokenReference
    else
      match r.originalRef with
      | none => .error .BrokenReference
      | some oid =>
        match lookupById s oid with
        | none => .error .BrokenReference
        | some o =>
          match o.physicalContent with
          | some c => .ok c
          | none => .error .BrokenReference

structure StorageSavingsResult where
  bytesSaved : Nat
  duplicateCount : Nat
deriving DecidableEq, Repr

/-- Modelled from the spec: SavingsAccountant.computeSavings (§4.5),
recomputed on demand from the current record state. -/
def computeSavings (s : Store) : StorageSavingsResult :=
  let dups := s.records.filter (fun r => !r.isOriginal)
  { bytesSaved := (dups.map FileRecord.size).sum,
    duplicateCount := dups.length }

/-- A boundary operation against the store: ingest or delete. -/
inductive Op where
  | ingestOp (bytes : Bytes) (name : String)
  | deleteOp (i : Nat)
deriving DecidableEq, Repr

/-- One operation applied to the store; a failed operation leaves the
store unchanged (nothing is persisted on error). -/
def stepOp (s : Store) (op : Op) : Store :=
  match op with
  | .ingestOp bytes name =>
    match ingest s bytes name with
    | .ok (s', _) => s'
    | .error _ => s
  | .deleteOp i =>
    match deleteRecord s i with
    | .ok s' => s'
    | .error _ => s

/-- The store reached from the empty store by a sequence of operations. -/
def runOps (ops : List Op) : Store := ops.foldl stepOp Store.empty

/-- The original records carrying a given content hash. -/
def originalsWithHash (s : Store) (h : Bytes) : List FileRecord :=
  s.records.filter (fun r => r.isOriginal && r.contentHash == h)

/-- A content hash appears among the records. -/
def hashPresent (s : Store) (h : Bytes) : Prop :=
  ∃ r ∈ s.records, r.contentHash = h

instance (s : Store) (h : Bytes) : Decidable (hashPresent s h) := by
  unfold hashPresent; infer_instance

/-- Well-formedness of a store: the invariants of spec §3, plus the
bookkeeping facts (fresh-id bound, distinct ids) needed to maintain
them. -/
structure StoreWF (s : Store) : Prop where
  idBound : ∀ r ∈ s.records, r.id < s.nextId
  idsNodup : (s.records.map FileRecord.id).Nodup
  originalOwns : ∀ r ∈ s.records, r.isOriginal = true →
    r.physicalContent = some r.contentHash ∧ r.originalRef = none
  dupRef : ∀ r ∈ s.records, r.isOriginal = false →
    r.physicalContent = none ∧
    ∃ o ∈ s.records, r.originalRef = some o.id ∧ o.isOriginal = true ∧
      o.contentHash = r.contentHash
  sizeHash : ∀ r ∈ s.records, r.size = r.contentHash.length
  uniqueOrig : ∀ h, hashPresent s h → (originalsWithHash s h).length = 1

lemma ingest_too_large {s : Store} {bytes : Bytes} {name : String}
    (hgt : bytes.length > maxUploadSize) :
    ingest s bytes name = .error .PayloadTooLarge := by
  unfold ingest
  rw [if_pos hgt]

lemma ingest_ok_cases {s : Store} {bytes : Bytes} {name : String}
    {s' : Store} {r : FileRecord}
    (h : ingest s bytes name = .ok (s', r)) :
    bytes.length ≤ maxUploadSize ∧
    s' = { records := s.records ++ [r], nextId := s.nextId + 1 } ∧
    ((∃ orig, lookupByHash s bytes = some orig ∧
        r = mkDupRecord s bytes name orig.id) ∨
     (lookupByHash s bytes = none ∧ r = mkOrigRecord s bytes name)) := by
  by_cases hgt : bytes.length > maxUploadSize
  · rw [ingest_too_large hgt] at h
    exact absurd h (by simp)
  · have hle : bytes.length ≤ maxUploadSize := Nat.le_of_not_lt hgt
    unfold ingest at h
    rw [if_neg hgt] at h
    have hid : hashBytes bytes = bytes := rfl
    rcases hl : lookupByHash s bytes with _ | orig
    · rw [hid, hl] at h
      simp only [Except.ok.injEq, Prod.mk.injEq] at h
      obtain ⟨h1, h2⟩ := h
      subst h2
      subst h1
      exact ⟨hle, rfl, Or.inr ⟨rfl, rfl⟩⟩
    · rw [hid, hl] at h
      simp only [Except.ok.injEq, Prod.mk.injEq] at h
      obtain ⟨h1, h2⟩ := h
      subst h2
      subst h1
      exact ⟨hle, rfl, Or.inl ⟨orig, rfl, rfl⟩⟩

lemma ingest_ok_of_le {s : Store} {bytes : Bytes} (name : String)
    (hle : bytes.length ≤ maxUploadSize) :
    ∃ s' r, ingest s bytes name = .ok (s', r) := by
  unfold ingest
  rw [if_neg (Nat.not_lt_of_le hle)]
  rcases lookupByHash s (hashBytes bytes) with _ | orig <;> exact ⟨_, _, rfl⟩

lemma lookupByHash_some {s : Store} {h : Bytes} {o : FileRecord}
    (e : lookupByHash s h = some o) :
    o ∈ s.records ∧ o.isOriginal = true ∧ o.contentHash = h := by
  refine ⟨List.mem_of_find?_eq_some e, ?_, ?_⟩ <;>
    have hp := List.find?_some e <;>
    simp only [Bool.and_eq_true, beq_iff_eq] at hp
  · exact hp.1
  · exact hp.2

lemma lookupByHash_none {s : Store} {h : Bytes}
    (e : lookupByHash s h = none) :
    ∀ x ∈ s.records, ¬(x.isOriginal = true ∧ x.contentHash = h) := by
  intro x hx hcon
  have := List.find?_eq_none.mp e x hx
  simp only [Bool.and_eq_true, beq_iff_eq] at this
  exact this hcon

lemma lookupById_some {s : Store} {i : Nat} {r : FileRecord}
    (e : lookupById s i = some r) : r ∈ s.records ∧ r.id = i := by
  refine ⟨List.mem_of_find?_eq_some e, ?_⟩
  have hp := List.find?_some e
  simpa using hp

lemma lookupById_of_mem {s : Store}
    (w : (s.records.map FileRecord.id).Nodup) {d : FileRecord}
    (hd : d ∈ s.records) : lookupById s d.id = some d := by
  have hs : (s.records.find? (fun r => r.id == d.id)).isSome :=
    List.find?_isSome.mpr ⟨d, hd, by simp⟩
  obtain ⟨x, hx⟩ := Option.isSome_iff_exists.mp hs
  have hxmem := List.mem_of_find?_eq_some hx
  have hxid : x.id = d.id := by simpa using List.find?_some hx
  have hxd : x = d := List.inj_on_of_nodup_map w hxmem hd hxid
  rw [lookupById, hx, hxd]

lemma mem_id_eq {s : Store} (w : StoreWF s) {a b : FileRecord}
    (ha : a ∈ s.records) (hb : b ∈ s.records) (hid : a.id = b.id) :
    a = b :=
  List.inj_on_of_nodup_map w.idsNodup ha hb hid

lemma delete_ok_cases {s : Store} {i : Nat} {s' : Store}
    (h : deleteRecord s i = .ok s') :
    ∃ r, lookupById s i = some r ∧
      ¬(r.isOriginal = true ∧ hasDependents s i = true) ∧
      s' = { s with records := s.records.filter (fun q => q.id != i) } := by
  unfold deleteRecord at h
  split at h
  · simp at h
  · next r hl =>
    split at h
    · simp at h
    · next hc =>
      simp only [Except.ok.injEq] at h
      refine ⟨r, hl, ?_, h.symm⟩
      intro hcon
      rw [hcon.1, hcon.2] at hc
      simp at hc

lemma wf_empty : StoreWF Store.empty := by
  refine ⟨?_, ?_, ?_, ?_, ?_, ?_⟩
  · intro r hr; simp [Store.empty] at hr
  · simp [Store.empty]
  · intro r hr; simp [Store.empty] at hr
  · intro r hr; simp [Store.empty] at hr
  · intro r hr; simp [Store.empty] at hr
  · intro h hp
    unfold hashPresent at hp
    obtain ⟨r, hr, _⟩ := hp
    simp [Store.empty] at hr

lemma wf_ingest {s : Store} {bytes : Bytes} {name : String} {s' : Store}
    {r : FileRecord} (w : StoreWF s)
    (h : ingest s bytes name = .ok (s', r)) : StoreWF s' := by
  obtain ⟨hle, hs', hcase⟩ := ingest_ok_cases h
  subst hs'
  rcases hcase with ⟨orig, hl, hr⟩ | ⟨hl, hr⟩ <;> subst hr
  · obtain ⟨hom, hoo, hoh⟩ := lookupByHash_some hl
    refine ⟨?_, ?_, ?_, ?_, ?_, ?_⟩
    · intro q hq
      rcases List.mem_append.mp hq with hq | hq
      · exact Nat.lt_succ_of_lt (w.idBound q hq)
      · rw [List.mem_singleton.mp hq]
        exact Nat.lt_succ_self _
    · rw [List.map_append, List.nodup_append]
      refine ⟨w.idsNodup, by simp, ?_⟩
      intro x hx hx2
      simp only [List.map_cons, List.map_nil, List.mem_singleton,
        mkDupRecord] at hx2
      subst hx2
      simp only [List.mem_map] at hx
      obtain ⟨q, hq, hqid⟩ := hx
      exact absurd (hqid ▸ w.idBound q hq) (Nat.lt_irrefl _)
    · intro q hq hqo
      rcases List.mem_append.mp hq with hq | hq
      · exact w.originalOwns q hq hqo
      · rw [List.mem_singleton.mp hq] at hqo
        simp [mkDupRecord] at hqo
    · intro q hq hqd
      rcases List.mem_append.mp hq with hq | hq
      · obtain ⟨hpc, o, ho, href, hoo2, hoh2⟩ := w.dupRef q hq hqd
        exact ⟨hpc, o, List.mem_append_left _ ho, href, hoo2, hoh2⟩
      · rw [List.mem_singleton.mp hq]
        refine ⟨rfl, orig, List.mem_append_left _ hom, rfl, hoo, ?_⟩
        rw [hoh]
        rfl
    · intro q hq
      rcases List.mem_append.mp hq with hq | hq
      · exact w.sizeHash q hq
      · rw [List.mem_singleton.mp hq]
        rfl
    · intro h2 hp
      have heq : originalsWithHash
          { records := s.records ++ [mkDupRecord s bytes name orig.id],
            nextId := s.nextId + 1 } h2 = originalsWithHash s h2 := by
        simp only [originalsWithHash]
        rw [List.filter_append]
        simp [mkDupRecord]
      rw [heq]
      apply w.uniqueOrig
      unfold hashPresent at hp ⊢
      obtain ⟨x, hx, hxh⟩ := hp
      rcases List.mem_append.mp hx with hx | hx
      · exact ⟨x, hx, hxh⟩
      · rw [List.mem_singleton.mp hx] at hxh
        refine ⟨orig, hom, ?_⟩
        rw [hoh]
        exact hxh
  · have hnone := lookupByHash_none hl
    refine ⟨?_, ?_, ?_, ?_, ?_, ?_⟩
    · intro q hq
      rcases List.mem_append.mp hq with hq | hq
      · exact Nat.lt_succ_of_lt (w.idBound q hq)
      · rw [List.mem_singleton.mp hq]
        exact Nat.lt_succ_self _
    · rw [List.map_append, List.nodup_append]
      refine ⟨w.idsNodup, by simp, ?_⟩
      intro x hx hx2
      simp only [List.map_cons, List.map_nil, List.mem_singleton,
        mkOrigRecord] at hx2
      subst hx2
      simp only [List.mem_map] at hx
      obtain ⟨q, hq, hqid⟩ := hx
      exact absurd (hqid ▸ w.idBound q hq) (Nat.lt_irrefl _)
    · intro q hq hqo
      rcases List.mem_append.mp hq with hq | hq
      · exact w.originalOwns q hq hqo
      · rw [List.mem_singleton.mp hq]
        exact ⟨rfl, rfl⟩
    · intro q hq hqd
      rcases List.mem_append.mp hq with hq | hq
      · obtain ⟨hpc, o, ho, href, hoo2, hoh2⟩ := w.dupRef q hq hqd
        exact ⟨hpc, o, List.mem_append_left _ ho, href, hoo2, hoh2⟩
      · rw [List.mem_singleton.mp hq] at hqd
        simp [mkOrigRecord] at hqd
    · intro q hq
      rcases List.mem_append.mp hq with hq | hq
      · exact w.sizeHash q hq
      · rw [List.mem_singleton.mp hq]
        rfl
    · intro h2 hp
      by_cases hbh : h2 = bytes
      · subst hbh
        have hone : List.filter
            (fun r => r.isOriginal && r.contentHash == h2)
            [mkOrigRecord s h2 name] = [mkOrigRecord s h2 name] := by
          simp [mkOrigRecord, hashBytes]
        have h0 : List.filter (fun r => r.isOriginal && r.contentHash == h2)
            s.records = [] := by
          rw [List.filter_eq_nil_iff]
          intro a ha hpa
          simp only [Bool.and_eq_true, beq_iff_eq] at hpa
          exact hnone a ha ⟨hpa.1, hpa.2⟩
        simp only [originalsWithHash]
        rw [List.filter_append, hone, h0]
        rfl
      · have hzero : List.filter
            (fun r => r.isOriginal && r.contentHash == h2)
            [mkOrigRecord s bytes name] = [] := by
          simp only [mkOrigRecord, hashBytes, List.filter_eq_nil_iff,
            List.mem_singleton]
          intro a ha
          subst ha
          simp only [Bool.and_eq_true, beq_iff_eq]
          intro hcon
          exact hbh hcon.2.symm
        have heq : originalsWithHash
            { records := s.records ++ [mkOrigRecord s bytes name],
              nextId := s.nextId + 1 } h2 = originalsWithHash s h2 := by
          simp only [originalsWithHash]
          rw [List.filter_append, hzero, List.append_nil]
        rw [heq]
        apply w.uniqueOrig
        unfold hashPresent at hp ⊢
        obtain ⟨x, hx, hxh⟩ := hp
        rcases List.mem_append.mp hx with hx | hx
        · exact ⟨x, hx, hxh⟩
        · rw [List.mem_singleton.mp hx] at hxh
          exact absurd hxh.symm hbh

lemma wf_delete {s : Store} {i : Nat} {s' : Store} (w : StoreWF s)
    (h : deleteRecord s i = .ok s') : StoreWF s' := by
  obtain ⟨r, hl, hcond, hs'⟩ := delete_ok_cases h
  subst hs'
  obtain ⟨hrm, hri⟩ := lookupById_some hl
  have hmem : ∀ q ∈ List.filter (fun q => q.id != i) s.records,
      q ∈ s.records ∧ q.id ≠ i := by
    intro q hq
    have hmf := List.mem_filter.mp hq
    exact ⟨hmf.1, by simpa using hmf.2⟩
  refine ⟨?_, ?_, ?_, ?_, ?_, ?_⟩
  · intro q hq
    exact w.idBound q (hmem q hq).1
  · exact ((List.filter_sublist _).map FileRecord.id).nodup w.idsNodup
  · intro q hq hqo
    exact w.originalOwns q (hmem q hq).1 hqo
  · intro q hq hqd
    obtain ⟨hq1, _⟩ := hmem q hq
    obtain ⟨hpc, o, ho, href, hoo, hoh⟩ := w.dupRef q hq1 hqd
    refine ⟨hpc, o, ?_, href, hoo, hoh⟩
    rw [List.mem_filter]
    refine ⟨ho, ?_⟩
    simp only [bne_iff_ne, ne_eq, decide_not]
    intro hoi
    have hor : o = r := mem_id_eq w ho hrm (by rw [hoi, hri])
    apply hcond
    refine ⟨by rw [← hor]; exact hoo, ?_⟩
    rw [hasDependents, List.any_eq_true]
    exact ⟨q, hq1, by simp [href, hor, hri, hoi]⟩
  · intro q hq
    exact w.sizeHash q (hmem q hq).1
  · intro h2 hp
    unfold hashPresent at hp
    obtain ⟨x, hx, hxh⟩ := hp
    obtain ⟨hx1, hx2⟩ := hmem x hx
    have hpres : hashPresent s h2 := ⟨x, hx1, hxh⟩
    have hlen := w.uniqueOrig h2 hpres
    obtain ⟨o, hoeq⟩ := List.length_eq_one.mp hlen
    have homem : o ∈ s.records ∧
        (o.isOriginal && o.contentHash == h2) = true := by
      have hoin : o ∈ originalsWithHash s h2 := by
        rw [hoeq]
        exact List.mem_singleton.mpr rfl
      exact List.mem_filter.mp hoin
    have hoo : o.isOriginal = true := by
      have := homem.2
      simp only [Bool.and_eq_true] at this
      exact this.1
    have hoh2 : o.contentHash = h2 := by
      have := homem.2
      simp only [Bool.and_eq_true, beq_iff_eq] at this
      exact this.2
    have hone : o.id ≠ i := by
      intro hoi
      have hor : o = r := mem_id_eq w homem.1 hrm (by rw [hoi, hri])
      by_cases hxo : x.isOriginal = true
      · have hxin : x ∈ originalsWithHash s h2 :=
          List.mem_filter.mpr ⟨hx1, by simp [hxo, hxh]⟩
        rw [hoeq] at hxin
        have hxe := List.mem_singleton.mp hxin
        exact hx2 (by rw [hxe, hoi])
      · have hxd : x.isOriginal = false := by simpa using hxo
        obtain ⟨hpc, o2, ho2, href2, hoo2, hoh22⟩ := w.dupRef x hx1 hxd
        have ho2in : o2 ∈ originalsWithHash s h2 :=
          List.mem_filter.mpr ⟨ho2, by
            simp only [Bool.and_eq_true, beq_iff_eq]
            exact ⟨hoo2, by rw [hoh22, hxh]⟩⟩
        rw [hoeq] at ho2in
        have ho2o : o2 = o := List.mem_singleton.mp ho2in
        apply hcond
        refine ⟨by rw [← hor]; exact hoo, ?_⟩
        rw [hasDependents, List.any_eq_true]
        exact ⟨x, hx1, by simp [href2, ho2o, hor, hri, hoi]⟩
    have hcomm : originalsWithHash
        { s with records := List.filter (fun q => q.id != i) s.records } h2
        = List.filter (fun q => q.id != i) (originalsWithHash s h2) := by
      simp only [originalsWithHash]
      rw [List.filter_filter, List.filter_filter]
      apply List.filter_congr
      intro a _
      rw [Bool.and_comm]
    rw [hcomm, hoeq]
    simp [hone]

lemma wf_stepOp {s : Store} (w : StoreWF s) (op : Op) :
    StoreWF (stepOp s op) := by
  rcases op with ⟨bytes, name⟩ | i
  · rcases hi : ingest s bytes name with e | ⟨s', r⟩
    · simpa [stepOp, hi] using w
    · have hw := wf_ingest w hi
      simpa [stepOp, hi] using hw
  · rcases hd : deleteRecord s i with e | s'
    · simpa [stepOp, hd] using w
    · have hw := wf_delete w hd
      simpa [stepOp, hd] using hw

lemma wf_foldl {s : Store} (w : StoreWF s) (ops : List Op) :
    StoreWF (ops.foldl stepOp s) := by
  induction ops generalizing s with
  | nil => exact w
  | cons op rest ih => exact ih (wf_stepOp w op)

lemma wf_runOps (ops : List Op) : StoreWF (runOps ops) :=
  wf_foldl wf_empty ops

lemma ingest_empty {bytes : Bytes} (name : String)
    (hle : bytes.length ≤ maxUploadSize) :
    ingest Store.empty bytes name =
      .ok ({ records := [mkOrigRecord Store.empty bytes name], nextId := 1 },
        mkOrigRecord Store.empty bytes name) := by
  unfold ingest
  rw [if_neg (Nat.not_lt_of_le hle)]
  rfl

lemma ingest_dup_step {s : Store} {bytes : Bytes} (name : String)
    (hle : bytes.length ≤ maxUploadSize) {orig : FileRecord}
    (hl : lookupByHash s bytes = some orig) :
    ingest s bytes name =
      .ok ({ records := s.records ++ [mkDupRecord s bytes name orig.id],
             nextId := s.nextId + 1 },
        mkDupRecord s bytes name orig.id) := by
  unfold ingest
  rw [if_neg (Nat.not_lt_of_le hle)]
  have hl' : lookupByHash s (hashBytes bytes) = some orig := hl
  rw [hl']

lemma ingest_same_step {bytes : Bytes} (hle : bytes.length ≤ maxUploadSize)
    {s : Store} {k : Nat} (name : String)
    (hlen : s.records.length = k) (hk : 1 ≤ k)
    (hall : ∀ r ∈ s.records, r.contentHash = bytes ∧ r.size = bytes.length)
    (ho : (s.records.filter (fun r => r.isOriginal)).length = 1)
    (hd : (s.records.filter (fun r => !r.isOriginal)).length = k - 1) :
    (stepOp s (Op.ingestOp bytes name)).records.length = k + 1 ∧
    (∀ r ∈ (stepOp s (Op.ingestOp bytes name)).records,
      r.contentHash = bytes ∧ r.size = bytes.length) ∧
    ((stepOp s (Op.ingestOp bytes name)).records.filter
        (fun r => r.isOriginal)).length = 1 ∧
    ((stepOp s (Op.ingestOp bytes name)).records.filter
        (fun r => !r.isOriginal)).length = k := by
  obtain ⟨o, hoeq⟩ := List.length_eq_one.mp ho
  have homem : o ∈ s.records ∧ o.isOriginal = true := by
    have hoin : o ∈ s.records.filter (fun r => r.isOriginal) := by
      rw [hoeq]
      exact List.mem_singleton.mpr rfl
    have hmf := List.mem_filter.mp hoin
    exact ⟨hmf.1, hmf.2⟩
  have hsome : (lookupByHash s bytes).isSome := by
    rw [lookupByHash]
    apply List.find?_isSome.mpr
    exact ⟨o, homem.1, by simp [homem.2, (hall o homem.1).1]⟩
  obtain ⟨orig, horig⟩ := Option.isSome_iff_exists.mp hsome
  have hstep : stepOp s (Op.ingestOp bytes name) =
      { records := s.records ++ [mkDupRecord s bytes name orig.id],
        nextId := s.nextId + 1 } := by
    simp [stepOp, ingest_dup_step name hle horig]
  rw [hstep]
  refine ⟨?_, ?_, ?_, ?_⟩
  · simp [List.length_append, hlen]
  · intro r hr
    rcases List.mem_append.mp hr with hr | hr
    · exact hall r hr
    · rw [List.mem_singleton.mp hr]
      exact ⟨rfl, rfl⟩
  · rw [List.filter_append]
    simp [mkDupRecord, ho]
  · rw [List.filter_append]
    simp only [List.length_append]
    have hdup : (List.filter (fun r => !r.isOriginal)
        [mkDupRecord s bytes name orig.id]).length = 1 := by
      simp [mkDupRecord]
    rw [hd, hdup]
    omega

lemma ingest_same_fold {bytes : Bytes} (hle : bytes.length ≤ maxUploadSize) :
    ∀ (names : List String) (s : Store) (k : Nat),
      s.records.length = k → 1 ≤ k →
      (∀ r ∈ s.records, r.contentHash = bytes ∧ r.size = bytes.length) →
      (s.records.filter (fun r => r.isOriginal)).length = 1 →
      (s.records.filter (fun r => !r.isOriginal)).length = k - 1 →
      (names.foldl (fun acc nm => stepOp acc (Op.ingestOp bytes nm))
          s).records.length = k + names.length ∧
      (∀ r ∈ (names.foldl (fun acc nm => stepOp acc (Op.ingestOp bytes nm))
          s).records, r.contentHash = bytes ∧ r.size = bytes.length) ∧
      ((names.foldl (fun acc nm => stepOp acc (Op.ingestOp bytes nm))
          s).records.filter (fun r => r.isOriginal)).length = 1 ∧
      ((names.foldl (fun acc nm => stepOp acc (Op.ingestOp bytes nm))
          s).records.filter (fun r => !r.isOriginal)).length
        = k + names.length - 1 := by
  intro names
  induction names with
  | nil =>
    intro s k hlen hk hall ho hd
    simp only [List.foldl_nil, List.length_nil, Nat.add_zero]
    exact ⟨hlen, hall, ho, hd⟩
  | cons nm rest ih =>
    intro s k hlen hk hall ho hd
    obtain ⟨h1, h2, h3, h4⟩ := ingest_same_step hle nm hlen hk hall ho hd
    have hd' : ((stepOp s (Op.ingestOp bytes nm)).records.filter
        (fun r => !r.isOriginal)).length = (k + 1) - 1 := by
      rw [h4]
      omega
    obtain ⟨g1, g2, g3, g4⟩ :=
      ih (stepOp s (Op.ingestOp bytes nm)) (k + 1) h1 (by omega) h2 h3 hd'
    simp only [List.foldl_cons]
    refine ⟨?_, g2, g3, ?_⟩
    · rw [g1]
      simp only [List.length_cons]
      omega
    · rw [g4]
      simp only [List.length_cons]
      omega

lemma ingest_same_scenario {bytes : Bytes}
    (hle : bytes.length ≤ maxUploadSize) (names : List String)
    (hne : names ≠ []) :
    (runOps (names.map (fun x => Op.ingestOp bytes x))).records.length
      = names.length ∧
    (∀ r ∈ (runOps (names.map (fun x => Op.ingestOp bytes x))).records,
      r.contentHash = bytes ∧ r.size = bytes.length) ∧
    ((runOps (names.map (fun x => Op.ingestOp bytes x))).records.filter
        (fun r => r.isOriginal)).length = 1 ∧
    ((runOps (names.map (fun x => Op.ingestOp bytes x))).records.filter
        (fun r => !r.isOriginal)).length = names.length - 1 := by
  rcases names with _ | ⟨nm, rest⟩
  · exact absurd rfl hne
  · have hrun : runOps ((nm :: rest).map (fun x => Op.ingestOp bytes x)) =
        rest.foldl (fun acc x => stepOp acc (Op.ingestOp bytes x))
          (stepOp Store.empty (Op.ingestOp bytes nm)) := by
      rw [runOps, List.map_cons, List.foldl_cons, List.foldl_map]
    have hfirst : stepOp Store.empty (Op.ingestOp bytes nm) =
        { records := [mkOrigRecord Store.empty bytes nm], nextId := 1 } := by
      simp [stepOp, ingest_empty nm hle]
    have hP1 : ({ records := [mkOrigRecord Store.empty bytes nm], nextId := 1 } : Store).records.length = 1 := by
      simp
    obtain ⟨g1, g2, g3, g4⟩ := ingest_same_fold hle rest
      { records := [mkOrigRecord Store.empty bytes nm], nextId := 1 } 1
      hP1 (le_refl 1)
      (by
        intro r hr
        rw [List.mem_singleton.mp hr]
        exact ⟨rfl, rfl⟩)
      (by simp [mkOrigRecord])
      (by simp [mkOrigRecord])
    rw [hrun, hfirst]
    refine ⟨by rw [g1]; simp [Nat.add_comm], g2, g3, by rw [g4]; simp⟩

lemma sum_sizes_const (l : List FileRecord) (c : Nat)
    (h : ∀ r ∈ l, r.size = c) :
    (l.map FileRecord.size).sum = l.length * c := by
  induction l with
  | nil => simp
  | cons a rest ih =>
    simp only [List.map_cons, List.sum_cons, List.length_cons]
    rw [h a (List.mem_cons_self a rest),
      ih (fun r hr => h r (List.mem_cons_of_mem a hr))]
    ring

/-- FilterState as declared in src/frontend/src/services/api.ts and
FileList.tsx: five string fields; the empty string means the filter is
unset, matching the TypeScript truthiness checks in fileService.list. -/
structure FilterState where
  minSize : String
  maxSize : String
  type : String
  dateFrom : String
  dateTo : String
deriving DecidableEq, Repr

/-- The query parameters built by fileService.list in api.ts: `page`
always; `search` when non-empty; then each non-empty filter field under
its snake_case key, in source order. -/
def buildListParams (page : Nat) (search : String)
    (filters : Option FilterState) : List (String × String) :=
  let params := [("page", toString page)]
  let params := if search ≠ "" then params ++ [("search", search)] else params
  match filters with
  | none => params
  | some f =>
    let params :=
      if f.minSize ≠ "" then params ++ [("min_size", f.minSize)] else params
    let params :=
      if f.maxSize ≠ "" then params ++ [("max_size", f.maxSize)] else params
    let params :=
      if f.type ≠ "" then params ++ [("type", f.type)] else params
    let params :=
      if f.dateFrom ≠ "" then params ++ [("date_from", f.dateFrom)]
      else params
    if f.dateTo ≠ "" then params ++ [("date_to", f.dateTo)] else params

/-- PaginatedResponse as declared in api.ts. -/
structure PaginatedResponse (T : Type) where
  results : List T
  total : Nat
  pages : Nat
  current_page : Nat
  is_superuser : Bool
deriving DecidableEq, Repr

/-- The field names of PaginatedResponse, in declaration order. -/
def paginatedResponseFields : List String :=
  ["results", "total", "pages", "current_page", "is_superuser"]

/-- The field names of FilterState, in declaration order. -/
def filterStateFields : List String :=
  ["minSize", "maxSize", "type", "dateFrom", "dateTo"]

/-- FileResponse as declared in api.ts. -/
structure FileResponse where
  id : String
  name : String
  size : Nat
  content_type : String
  created_at : String
  updated_at : String
  url : String
  is_original : Bool
  original_file_url : Option String
deriving DecidableEq, Repr

/-- The field names of FileResponse, in declaration order. -/
def fileResponseFields : List String :=
  ["id", "name", "size", "content_type", "created_at", "updated_at",
   "url", "is_original", "original_file_url"]

/-- The download URL derived from a record identifier, as produced by the
files endpoint consumed by fileService.download. -/
def downloadUrlOf (i : Nat) : String :=
  "/api/files/" ++ toString i ++ "/download/"

/-- Modelled from the spec: the API serialization of a persisted record
(§6, external representation). `original_file_url` is the download URL
of the ownership reference, so it is present exactly when `originalRef`
is. Timestamp values are not modelled (no claim depends on them); the
two timestamp fields carry an empty placeholder. -/
def toFileResponse (r : FileRecord) : FileResponse :=
  { id := toString r.id, name := r.name, size := r.size,
    content_type := r.contentType, created_at := "", updated_at := "",
    url := downloadUrlOf r.id, is_original := r.isOriginal,
    original_file_url := r.originalRef.map downloadUrlOf }

/-- The component state of the FileUpload component (selectedFile, error,
isUploading). The selected file is modelled by its name; handleUpload
never inspects it beyond presence. -/
structure UploadComponentState where
  selectedFile : Option String
  error : Option String
  isUploading : Bool
deriving DecidableEq, Repr

/-- FileUpload.handleUpload, modelled as a function from the component
state to the new state paired with whether fileService.upload was
invoked. `uploadOk` abstracts the network outcome and `serverError` the
optional `err.response.data.error` payload read on failure. -/
def handleUpload (st : UploadComponentState) (uploadOk : Bool)
    (serverError : Option String) : UploadComponentState × Bool :=
  match st.selectedFile with
  | none => ({ st with error := some "Please select a file" }, false)
  | some _ =>
    if uploadOk then
      ({ selectedFile := none, error := none, isUploading := false }, true)
    else
      ({ st with
          error := some
            (serverError.getD "Failed to upload file. Please try again."),
          isUploading := false }, true)

/-- The Previous handler in FileList.tsx:
`setCurrentPage(p => Math.max(1, p - 1))`. -/
def prevPage (p : Int) : Int := max 1 (p - 1)

/-- The Next handler in FileList.tsx:
`setCurrentPage(p => Math.min(totalPages, p + 1))`. -/
def nextPage (totalPages p : Int) : Int := min totalPages (p + 1)

lemma ingest_new_step {s : Store} {bytes : Bytes} (name : String)
    (hle : bytes.length ≤ maxUploadSize)
    (hl : lookupByHash s bytes = none) :
    ingest s bytes name =
      .ok ({ records := s.records ++ [mkOrigRecord s bytes name],
             nextId := s.nextId + 1 },
        mkOrigRecord s bytes name) := by
  unfold ingest
  rw [if_neg (Nat.not_lt_of_le hle)]
  have hl' : lookupByHash s (hashBytes bytes) = none := hl
  rw [hl']

/-- C1: on every reachable store each content hash present among the
records has exactly one original record, and every such original holds
the physical content; ingesting the same byte content under N names
(N ≥ 1) yields exactly one original and N − 1 duplicates, all sharing
the content hash and size of those bytes. -/
theorem c1_unique_original_per_hash :
    (∀ (ops : List Op) (h : Bytes), hashPresent (runOps ops) h →
      (originalsWithHash (runOps ops) h).length = 1 ∧
      ∀ r ∈ originalsWithHash (runOps ops) h,
        r.isOriginal = true ∧ r.physicalContent = some r.contentHash) ∧
    (∀ (bytes : Bytes) (names : List String), names ≠ [] →
      bytes.length ≤ maxUploadSize →
      ((runOps (names.map (fun x => Op.ingestOp bytes x))).records.filter
          (fun r => r.isOriginal)).length = 1 ∧
      ((runOps (names.map (fun x => Op.ingestOp bytes x))).records.filter
          (fun r => !r.isOriginal)).length = names.length - 1 ∧
      ∀ r ∈ (runOps (names.map (fun x => Op.ingestOp bytes x))).records,
        r.contentHash = hashBytes bytes ∧ r.size = bytes.length) := by
  constructor
  · intro ops h hp
    have w := wf_runOps ops
    refine ⟨w.uniqueOrig h hp, ?_⟩
    intro r hr
    have hmf := List.mem_filter.mp hr
    have hro : r.isOriginal = true := by
      have hb := hmf.2
      simp only [Bool.and_eq_true] at hb
      exact hb.1
    exact ⟨hro, (w.originalOwns r hmf.1 hro).1⟩
  · intro bytes names hne hle
    obtain ⟨_, h2, h3, h4⟩ := ingest_same_scenario hle names hne
    exact ⟨h3, h4, fun r hr => h2 r hr⟩

/-- Witness for C1: two ingests of the same two-byte content. -/
theorem c1_unique_original_per_hash_witness :
    (originalsWithHash (runOps [Op.ingestOp [1, 2] "a.txt",
        Op.ingestOp [1, 2] "b.txt"]) [1, 2]).length = 1 ∧
    ((runOps (["a.txt", "b.txt"].map
        (fun x => Op.ingestOp [1, 2] x))).records.filter
        (fun r => r.isOriginal)).length = 1 ∧
    ((runOps (["a.txt", "b.txt"].map
        (fun x => Op.ingestOp [1, 2] x))).records.filter
        (fun r => !r.isOriginal)).length = 2 - 1 :=
  ⟨(c1_unique_original_per_hash.1 [Op.ingestOp [1, 2] "a.txt",
      Op.ingestOp [1, 2] "b.txt"] [1, 2] (by decide)).1,
   (c1_unique_original_per_hash.2 [1, 2] ["a.txt", "b.txt"] (by decide)
      (by decide)).1,
   (c1_unique_original_per_hash.2 [1, 2] ["a.txt", "b.txt"] (by decide)
      (by decide)).2.1⟩

/-- C2: on every reachable store, resolving a duplicate follows its
originalRef exactly one hop to an original record and returns content
byte-identical to resolving that original directly; resolving an
original returns its own physical content. -/
theorem c2_retrieval_equivalence (ops : List Op) (d : FileRecord)
    (hd : d ∈ (runOps ops).records) :
    (d.isOriginal = false →
      ∃ o ∈ (runOps ops).records, d.originalRef = some o.id ∧
        o.isOriginal = true ∧ o.physicalContent = some o.contentHash ∧
        resolveContent (runOps ops) d.id = .ok o.contentHash ∧
        resolveContent (runOps ops) o.id = .ok o.contentHash) ∧
    (d.isOriginal = true →
      d.physicalContent = some d.contentHash ∧
      resolveContent (runOps ops) d.id = .ok d.contentHash) := by
  have w := wf_runOps ops
  constructor
  · intro hdup
    obtain ⟨hpc, o, ho, href, hoo, hoh⟩ := w.dupRef d hd hdup
    have hopc := (w.originalOwns o ho hoo).1
    have hld : lookupById (runOps ops) d.id = some d :=
      lookupById_of_mem w.idsNodup hd
    have hlo : lookupById (runOps ops) o.id = some o :=
      lookupById_of_mem w.idsNodup ho
    refine ⟨o, ho, href, hoo, hopc, ?_, ?_⟩
    · simp [resolveContent, hld, hdup, href, hlo, hopc]
    · simp [resolveContent, hlo, hoo, hopc]
  · intro hor
    have hpc := (w.originalOwns d hd hor).1
    have hld : lookupById (runOps ops) d.id = some d :=
      lookupById_of_mem w.idsNodup hd
    exact ⟨hpc, by simp [resolveContent, hld, hor, hpc]⟩

/-- The duplicate record produced by the second ingest of the byte
content `[7]` in the two-ingest run used by the retrieval witness. -/
def sampleDup7 : FileRecord :=
  { id := 1, name := "b.txt", size := 1, contentType := "application/octet-stream", contentHash := [7], isOriginal := false, physicalContent := none, originalRef := some 0 }

/-- Witness for C2: the duplicate created by the second ingest of the
byte content `[7]` resolves through its original. -/
theorem c2_retrieval_equivalence_witness :
    ∃ o ∈ (runOps [Op.ingestOp [7] "a.txt", Op.ingestOp [7] "b.txt"]).records,
      sampleDup7.originalRef = some o.id ∧
      o.isOriginal = true ∧ o.physicalContent = some o.contentHash ∧
      resolveContent (runOps [Op.ingestOp [7] "a.txt",
        Op.ingestOp [7] "b.txt"]) sampleDup7.id = .ok o.contentHash ∧
      resolveContent (runOps [Op.ingestOp [7] "a.txt",
        Op.ingestOp [7] "b.txt"]) o.id = .ok o.contentHash :=
  (c2_retrieval_equivalence [Op.ingestOp [7] "a.txt", Op.ingestOp [7] "b.txt"]
    sampleDup7 (by decide)).1 (by decide)

/-- C3: after every sequence of ingest and delete operations, every
duplicate's originalRef points directly to the unique original sharing
its content hash; no originalRef ever reaches a record that is itself a
duplicate. -/
theorem c3_no_chains (ops : List Op) (r : FileRecord)
    (hr : r ∈ (runOps ops).records) (hdup : r.isOriginal = false) :
    ∃ o ∈ (runOps ops).records, r.originalRef = some o.id ∧
      o.isOriginal = true ∧ o.contentHash = r.contentHash ∧
      ∀ q ∈ (runOps ops).records,
        (q.isOriginal = true → q.contentHash = r.contentHash → q = o) ∧
        (q.id = o.id → q = o) := by
  have w := wf_runOps ops
  obtain ⟨hpc, o, ho, href, hoo, hoh⟩ := w.dupRef r hr hdup
  refine ⟨o, ho, href, hoo, hoh, ?_⟩
  intro q hq
  constructor
  · intro hqo hqh
    have hpres : hashPresent (runOps ops) r.contentHash := ⟨r, hr, rfl⟩
    have hlen := w.uniqueOrig r.contentHash hpres
    obtain ⟨u, hueq⟩ := List.length_eq_one.mp hlen
    have hqin : q ∈ originalsWithHash (runOps ops) r.contentHash :=
      List.mem_filter.mpr ⟨hq, by simp [hqo, hqh]⟩
    have hoin : o ∈ originalsWithHash (runOps ops) r.contentHash :=
      List.mem_filter.mpr ⟨ho, by simp [hoo, hoh]⟩
    rw [hueq] at hqin hoin
    rw [List.mem_singleton.mp hqin, List.mem_singleton.mp hoin]
  · intro hqid
    exact mem_id_eq w hq ho hqid

/-- The duplicate record produced by the third operation of the run used
by the no-chains witness. -/
def sampleDup34 : FileRecord :=
  { id := 2, name := "z.bin", size := 2, contentType := "application/octet-stream", contentHash := [3, 4], isOriginal := false, physicalContent := none, originalRef := some 0 }

/-- Witness for C3: the duplicate created by a second ingest of `[3, 4]`,
after an unrelated ingest and a rejected delete of the original, still
references the unique original. -/
theorem c3_no_chains_witness :
    ∃ o ∈ (runOps [Op.ingestOp [3, 4] "x.bin", Op.ingestOp [9] "y.bin",
        Op.ingestOp [3, 4] "z.bin", Op.deleteOp 0]).records,
      sampleDup34.originalRef = some o.id ∧
      o.isOriginal = true ∧ o.contentHash = sampleDup34.contentHash ∧
      ∀ q ∈ (runOps [Op.ingestOp [3, 4] "x.bin", Op.ingestOp [9] "y.bin",
          Op.ingestOp [3, 4] "z.bin", Op.deleteOp 0]).records,
        (q.isOriginal = true → q.contentHash = sampleDup34.contentHash →
          q = o) ∧
        (q.id = o.id → q = o) :=
  c3_no_chains [Op.ingestOp [3, 4] "x.bin", Op.ingestOp [9] "y.bin",
    Op.ingestOp [3, 4] "z.bin", Op.deleteOp 0]
    sampleDup34 (by decide) (by decide)

/-- C4: computeSavings returns the count of duplicate records and the sum
of their sizes; after ingesting a 1000-byte content under four names
(one original, three duplicates) it returns bytesSaved = 3000 and
duplicateCount = 3. -/
theorem c4_savings_correct :
    (∀ s : Store,
      (computeSavings s).duplicateCount
        = (s.records.filter (fun r => !r.isOriginal)).length ∧
      (computeSavings s).bytesSaved
        = ((s.records.filter (fun r => !r.isOriginal)).map
            FileRecord.size).sum) ∧
    (∀ names : List String, names.length = 4 →
      (computeSavings (runOps (names.map (fun x =>
          Op.ingestOp (List.replicate 1000 0) x)))).bytesSaved = 3000 ∧
      (computeSavings (runOps (names.map (fun x =>
          Op.ingestOp (List.replicate 1000 0) x)))).duplicateCount = 3) := by
  constructor
  · intro s
    exact ⟨rfl, rfl⟩
  · intro names hlen4
    have hne : names ≠ [] := by
      intro hnil
      rw [hnil] at hlen4
      simp at hlen4
    have hle : (List.replicate 1000 (0 : Nat)).length ≤ maxUploadSize := by
      rw [List.length_replicate]
      norm_num [maxUploadSize]
    obtain ⟨_, hall, _, hdup⟩ := ingest_same_scenario hle names hne
    have hcnt : ((runOps (names.map (fun x =>
        Op.ingestOp (List.replicate 1000 0) x))).records.filter
        (fun r => !r.isOriginal)).length = 3 := by
      rw [hdup, hlen4]
    have hsizes : ∀ r ∈ (runOps (names.map (fun x =>
        Op.ingestOp (List.replicate 1000 0) x))).records.filter
        (fun r => !r.isOriginal), r.size = 1000 := by
      intro r hr
      have hmf := List.mem_filter.mp hr
      have hs := (hall r hmf.1).2
      rw [hs, List.length_replicate]
    constructor
    · show ((((runOps (names.map (fun x =>
          Op.ingestOp (List.replicate 1000 0) x))).records.filter
          (fun r => !r.isOriginal)).map FileRecord.size).sum) = 3000
      rw [sum_sizes_const _ 1000 hsizes, hcnt]
    · exact hcnt

/-- Witness for C4: the 1000-byte content ingested under four concrete
names. -/
theorem c4_savings_correct_witness :
    (computeSavings (runOps (["o.bin", "d1.bin", "d2.bin", "d3.bin"].map
        (fun x => Op.ingestOp (List.replicate 1000 0) x)))).bytesSaved
      = 3000 ∧
    (computeSavings (runOps (["o.bin", "d1.bin", "d2.bin", "d3.bin"].map
        (fun x => Op.ingestOp (List.replicate 1000 0) x)))).duplicateCount
      = 3 :=
  c4_savings_correct.2 ["o.bin", "d1.bin", "d2.bin", "d3.bin"] (by decide)

/-- C5: ingest fails with PayloadTooLarge exactly when the payload
exceeds the 10 MB maximum; at or under the maximum it succeeds; and on
the oversize failure nothing is persisted. -/
theorem c5_payload_boundary (s : Store) (bytes : Bytes) (name : String) :
    (ingest s bytes name = .error .PayloadTooLarge ↔
      bytes.length > maxUploadSize) ∧
    (bytes.length ≤ maxUploadSize →
      ∃ s' r, ingest s bytes name = .ok (s', r)) ∧
    (bytes.length > maxUploadSize →
      stepOp s (Op.ingestOp bytes name) = s) := by
  refine ⟨⟨?_, ?_⟩, ?_, ?_⟩
  · intro he
    by_contra hgt
    obtain ⟨s', r, hok⟩ := ingest_ok_of_le name (Nat.le_of_not_lt hgt)
    rw [hok] at he
    simp at he
  · intro hgt
    exact ingest_too_large hgt
  · intro hle
    exact ingest_ok_of_le name hle
  · intro hgt
    simp [stepOp, ingest_too_large hgt]

/-- Witness for C5: a payload of exactly the maximum size succeeds and a
payload one byte over fails and persists nothing. -/
theorem c5_payload_boundary_witness :
    ingest Store.empty (List.replicate (maxUploadSize + 1) 0) "big.bin"
      = .error .PayloadTooLarge ∧
    (∃ s' r, ingest Store.empty (List.replicate maxUploadSize 0) "max.bin"
      = .ok (s', r)) ∧
    stepOp Store.empty
        (Op.ingestOp (List.replicate (maxUploadSize + 1) 0) "big.bin")
      = Store.empty := by
  have hgt : (List.replicate (maxUploadSize + 1) (0 : Nat)).length
      > maxUploadSize := by
    rw [List.length_replicate]
    exact Nat.lt_succ_self _
  have hle : (List.replicate maxUploadSize (0 : Nat)).length
      ≤ maxUploadSize := by
    rw [List.length_replicate]
  exact ⟨(c5_payload_boundary Store.empty _ "big.bin").1.mpr hgt,
    (c5_payload_boundary Store.empty _ "max.bin").2.1 hle,
    (c5_payload_boundary Store.empty _ "big.bin").2.2 hgt⟩

/-- C6: the ingest decision and the digest depend only on the bytes:
from one store, ingests of the same bytes under different names agree on
hash, originality and reference; two fresh ingests of identical bytes
under any names dedup (the second duplicates the first); ingests of
different bytes never share a digest and both become originals. -/
theorem c6_name_independence :
    (∀ (s : Store) (bytes : Bytes) (n1 n2 : String) s1 r1 s2 r2,
      ingest s bytes n1 = .ok (s1, r1) →
      ingest s bytes n2 = .ok (s2, r2) →
      r1.contentHash = r2.contentHash ∧ r1.isOriginal = r2.isOriginal ∧
        r1.originalRef = r2.originalRef) ∧
    (∀ (bytes : Bytes) (n1 n2 : String), bytes.length ≤ maxUploadSize →
      ∃ s1 r1 s2 r2, ingest Store.empty bytes n1 = .ok (s1, r1) ∧
        ingest s1 bytes n2 = .ok (s2, r2) ∧
        r1.contentHash = r2.contentHash ∧ r1.isOriginal = true ∧
        r2.isOriginal = false ∧ r2.originalRef = some r1.id) ∧
    (∀ (bytes1 bytes2 : Bytes) (n : String), bytes1 ≠ bytes2 →
      bytes1.length ≤ maxUploadSize → bytes2.length ≤ maxUploadSize →
      ∃ s1 r1 s2 r2, ingest Store.empty bytes1 n = .ok (s1, r1) ∧
        ingest s1 bytes2 n = .ok (s2, r2) ∧
        r1.contentHash ≠ r2.contentHash ∧ r1.isOriginal = true ∧
        r2.isOriginal = true) := by
  refine ⟨?_, ?_, ?_⟩
  · intro s bytes n1 n2 s1 r1 s2 r2 h1 h2
    obtain ⟨_, _, hc1⟩ := ingest_ok_cases h1
    obtain ⟨_, _, hc2⟩ := ingest_ok_cases h2
    rcases hc1 with ⟨o1, hl1, hr1⟩ | ⟨hl1, hr1⟩ <;>
      rcases hc2 with ⟨o2, hl2, hr2⟩ | ⟨hl2, hr2⟩
    · have ho : o1 = o2 := Option.some.inj (hl1.symm.trans hl2)
      subst hr1
      subst hr2
      rw [ho]
      exact ⟨rfl, rfl, rfl⟩
    · rw [hl1] at hl2
      simp at hl2
    · rw [hl1] at hl2
      simp at hl2
    · subst hr1
      subst hr2
      exact ⟨rfl, rfl, rfl⟩
  · intro bytes n1 n2 hle
    have h1 := ingest_empty n1 hle
    have hlook : lookupByHash
        ({ records := [mkOrigRecord Store.empty bytes n1],
           nextId := 1 } : Store) bytes
        = some (mkOrigRecord Store.empty bytes n1) := by
      rw [lookupByHash]
      apply List.find?_cons_of_pos
      simp [mkOrigRecord, hashBytes]
    have h2 := ingest_dup_step n2 hle hlook
    exact ⟨_, _, _, _, h1, h2, rfl, rfl, rfl, rfl⟩
  · intro bytes1 bytes2 n hne hle1 hle2
    have h1 := ingest_empty n hle1
    have hlook : lookupByHash
        ({ records := [mkOrigRecord Store.empty bytes1 n],
           nextId := 1 } : Store) bytes2 = none := by
      rw [lookupByHash]
      rw [List.find?_cons_of_neg]
      · rfl
      · simp [mkOrigRecord, hashBytes]
        intro hcon
        exact hne hcon
    have h2 := ingest_new_step n hle2 hlook
    refine ⟨_, _, _, _, h1, h2, ?_, rfl, rfl⟩
    intro hcon
    exact hne hcon

/-- Witness for C6: concrete single-byte ingests under differing names
and differing bytes under one name. -/
theorem c6_name_independence_witness :
    ((mkOrigRecord Store.empty [1] "a.txt").contentHash
        = (mkOrigRecord Store.empty [1] "b.txt").contentHash ∧
      (mkOrigRecord Store.empty [1] "a.txt").isOriginal
        = (mkOrigRecord Store.empty [1] "b.txt").isOriginal ∧
      (mkOrigRecord Store.empty [1] "a.txt").originalRef
        = (mkOrigRecord Store.empty [1] "b.txt").originalRef) ∧
    (∃ s1 r1 s2 r2, ingest Store.empty [1] "a.txt" = .ok (s1, r1) ∧
      ingest s1 [1] "b.txt" = .ok (s2, r2) ∧
      r1.contentHash = r2.contentHash ∧ r1.isOriginal = true ∧
      r2.isOriginal = false ∧ r2.originalRef = some r1.id) ∧
    (∃ s1 r1 s2 r2, ingest Store.empty [1] "same.txt" = .ok (s1, r1) ∧
      ingest s1 [2] "same.txt" = .ok (s2, r2) ∧
      r1.contentHash ≠ r2.contentHash ∧ r1.isOriginal = true ∧
      r2.isOriginal = true) :=
  ⟨c6_name_independence.1 Store.empty [1] "a.txt" "b.txt"
      { records := [mkOrigRecord Store.empty [1] "a.txt"], nextId := 1 }
      (mkOrigRecord Store.empty [1] "a.txt")
      { records := [mkOrigRecord Store.empty [1] "b.txt"], nextId := 1 }
      (mkOrigRecord Store.empty [1] "b.txt") rfl rfl,
   c6_name_independence.2.1 [1] "a.txt" "b.txt" (by decide),
   c6_name_independence.2.2 [1] [2] "same.txt" (by decide) (by decide)
     (by decide)⟩

/-- C7 fails on the code: the paginated response's fields are results,
total, pages, current_page and is_superuser — not records, totalCount
and pageCount — and the filter has neither a namePrefix nor a
contentType field. -/
theorem c7_list_interface_counterexample :
    paginatedResponseFields ≠ ["records", "totalCount", "pageCount"] ∧
    "namePrefix" ∉ filterStateFields ∧
    "contentType" ∉ filterStateFields := by decide

/-- C7 (amended): fileService.list takes a page number, a search string
and an optional filter {minSize, maxSize, type, dateFrom, dateTo}; its
response carries exactly results, total, pages, current_page and
is_superuser; with no search and no filter the only query parameter is
`page`, and with every field set the parameters are page, search,
min_size, max_size, type, date_from, date_to — there is no pageSize. -/
theorem c7_list_interface :
    filterStateFields
      = ["minSize", "maxSize", "type", "dateFrom", "dateTo"] ∧
    paginatedResponseFields
      = ["results", "total", "pages", "current_page", "is_superuser"] ∧
    (∀ page : Nat,
      buildListParams page "" none = [("page", toString page)]) ∧
    (∀ (page : Nat) (search : String) (f : FilterState),
      search ≠ "" → f.minSize ≠ "" → f.maxSize ≠ "" → f.type ≠ "" →
      f.dateFrom ≠ "" → f.dateTo ≠ "" →
      buildListParams page search (some f) =
        [("page", toString page), ("search", search),
         ("min_size", f.minSize), ("max_size", f.maxSize),
         ("type", f.type), ("date_from", f.dateFrom),
         ("date_to", f.dateTo)]) := by
  refine ⟨rfl, rfl, ?_, ?_⟩
  · intro page
    rfl
  · intro page search f hs h1 h2 h3 h4 h5
    simp only [buildListParams]
    rw [if_pos hs, if_pos h1, if_pos h2, if_pos h3, if_pos h4, if_pos h5]
    rfl

/-- Witness for C7 (amended): concrete page, search and fully-set
filter. -/
theorem c7_list_interface_witness :
    buildListParams 2 "report"
        (some { minSize := "1", maxSize := "9", type := "text/plain",
                dateFrom := "2024-01-01", dateTo := "2024-12-31" }) =
      [("page", toString 2), ("search", "report"), ("min_size", "1"),
       ("max_size", "9"), ("type", "text/plain"),
       ("date_from", "2024-01-01"), ("date_to", "2024-12-31")] :=
  c7_list_interface.2.2.2 2 "report"
    { minSize := "1", maxSize := "9", type := "text/plain",
      dateFrom := "2024-01-01", dateTo := "2024-12-31" }
    (by decide) (by decide) (by decide) (by decide) (by decide) (by decide)

/-- C8 fails on the code: FileResponse has no field named download_url
(the download link field is named url). -/
theorem c8_representation_counterexample :
    "download_url" ∉ fileResponseFields := by decide

/-- C8 (amended): the external representation consists exactly of id,
name, size, content_type, created_at, updated_at, url, is_original and
original_file_url, and on every reachable record original_file_url is
present exactly when is_original is false. -/
theorem c8_representation :
    fileResponseFields
      = ["id", "name", "size", "content_type", "created_at", "updated_at",
         "url", "is_original", "original_file_url"] ∧
    ∀ ops : List Op, ∀ r ∈ (runOps ops).records,
      (toFileResponse r).is_original = r.isOriginal ∧
      ((toFileResponse r).original_file_url ≠ none ↔
        (toFileResponse r).is_original = false) := by
  refine ⟨rfl, ?_⟩
  intro ops r hr
  have w := wf_runOps ops
  refine ⟨rfl, ?_, ?_⟩
  · intro hne
    show r.isOriginal = false
    by_contra hor
    have hio : r.isOriginal = true := by
      rcases hb : r.isOriginal
      · exact absurd hb hor
      · rfl
    have href := (w.originalOwns r hr hio).2
    apply hne
    show (toFileResponse r).original_file_url = none
    simp [toFileResponse, href]
  · intro hfalse
    have hd := w.dupRef r hr hfalse
    obtain ⟨_, o, _, href, _, _⟩ := hd
    simp [toFileResponse, href]

/-- Witness for C8: the duplicate of the two-ingest run carries a
non-null original_file_url. -/
theorem c8_representation_witness :
    (toFileResponse sampleDup7).is_original = sampleDup7.isOriginal ∧
    ((toFileResponse sampleDup7).original_file_url ≠ none ↔
      (toFileResponse sampleDup7).is_original = false) :=
  c8_representation.2 [Op.ingestOp [7] "a.txt", Op.ingestOp [7] "b.txt"]
    sampleDup7 (by decide)

/-- C9: handleUpload with no selected file records the error message
"Please select a file", does not invoke the upload service, and leaves
selectedFile and isUploading unchanged. -/
theorem c9_upload_guard (st : UploadComponentState) (uploadOk : Bool)
    (serverError : Option String) (hnone : st.selectedFile = none) :
    handleUpload st uploadOk serverError
      = ({ st with error := some "Please select a file" }, false) ∧
    (handleUpload st uploadOk serverError).1.selectedFile
      = st.selectedFile ∧
    (handleUpload st uploadOk serverError).1.isUploading
      = st.isUploading ∧
    (handleUpload st uploadOk serverError).2 = false := by
  have h : handleUpload st uploadOk serverError
      = ({ st with error := some "Please select a file" }, false) := by
    unfold handleUpload
    rw [hnone]
  exact ⟨h, by rw [h], by rw [h], by rw [h]⟩

/-- Witness for C9: the initial component state with no selection. -/
theorem c9_upload_guard_witness :
    handleUpload
        { selectedFile := none, error := none, isUploading := false }
        true none
      = ({ selectedFile := none, error := some "Please select a file",
           isUploading := false }, false) :=
  (c9_upload_guard
    { selectedFile := none, error := none, isUploading := false }
    true none rfl).1

/-- C10: when 1 ≤ currentPage ≤ totalPages, the Previous handler yields
max(1, currentPage − 1) and the Next handler min(totalPages,
currentPage + 1), and both results stay within [1, totalPages]. -/
theorem c10_pagination_bounds (currentPage totalPages : Int)
    (h1 : 1 ≤ currentPage) (h2 : currentPage ≤ totalPages) :
    prevPage currentPage = max 1 (currentPage - 1) ∧
    nextPage totalPages currentPage = min totalPages (currentPage + 1) ∧
    1 ≤ prevPage currentPage ∧ prevPage currentPage ≤ totalPages ∧
    1 ≤ nextPage totalPages currentPage ∧
    nextPage totalPages currentPage ≤ totalPages := by
  refine ⟨rfl, rfl, ?_, ?_, ?_, ?_⟩
  · exact le_max_left 1 _
  · rw [prevPage]
    exact max_le (by omega) (by omega)
  · rw [nextPage]
    exact le_min (by omega) (by omega)
  · exact min_le_left _ _

/-- Witness for C10: page 2 of 3. -/
theorem c10_pagination_bounds_witness :
    prevPage 2 = max 1 (2 - 1) ∧ nextPage 3 2 = min 3 (2 + 1) ∧
    1 ≤ prevPage 2 ∧ prevPage 2 ≤ 3 ∧ 1 ≤ nextPage 3 2 ∧
    nextPage 3 2 ≤ 3 :=
  c10_pagination_bounds 2 3 (by decide) (by decide)
